import Mathlib

/-!
Shallow embedding of `internal/cmd/generate-protos/main.go` (the generate-protos
orchestrator of the protobuf-go repository) and proofs about it.

Modelling conventions:
* File-system paths are `String`s with `/` separators (the tool runs on a Unix
  tree, where `filepath.FromSlash`/`filepath.ToSlash` are the identity).
* Go strings are Lean `String`s; character-level processing is done on `.data`
  (the underlying `List Char`), which matches Go's byte processing on the ASCII
  paths involved.
* `filepath.Walk srcDir` visits a set of paths under `srcDir`; we represent a
  walk by the list of visited paths relative to `srcDir` (in visit order), and
  reconstruct the absolute path as `srcDir ++ "/" ++ p`.
* Go maps used as sets (`map[string]bool`) are represented by `List String`
  with membership, or by deduplicated lists where iteration order matters.
* Subprocess invocations (`protoc`, backends) are recorded as structured
  events; their side effects on the staging directory are abstracted where a
  claim does not depend on the generated bytes.
-/

namespace GenProtos

/-- Go `strings.HasSuffix`, on the character lists underlying the strings. -/
def hasSuffix (s suf : String) : Bool := suf.data.isSuffixOf s.data

/-- Go `strings.TrimSuffix`: drops `suf` from the end of `s` when present. -/
def trimSuffix (s suf : String) : String :=
  if hasSuffix s suf then ⟨s.data.take (s.data.length - suf.data.length)⟩ else s

/-- Go `strings.Split s ","` on the underlying character list: splits at every
comma; `[] ↦ [[]]` mirrors `strings.Split "" "," = [""]`. -/
def splitComma : List Char → List (List Char)
  | [] => [[]]
  | c :: cs =>
    if c = ',' then [] :: splitComma cs
    else
      match splitComma cs with
      | [] => [[c]]
      | w :: ws => (c :: w) :: ws

/-- Splitting a path into its `/`-separated components. -/
def splitSlash : List Char → List (List Char)
  | [] => [[]]
  | c :: cs =>
    if c = '/' then [] :: splitSlash cs
    else
      match splitSlash cs with
      | [] => [[c]]
      | w :: ws => (c :: w) :: ws

/-- Joins chunks with a separator character (`strings.Join` with a
one-character separator). -/
def joinWith (sep : Char) : List (List Char) → List Char
  | [] => []
  | [w] => w
  | w :: ws => w ++ sep :: joinWith sep ws

/-- Joins components with `/`. -/
def joinSlash : List (List Char) → List Char := joinWith '/'

/-- Go `filepath.Dir` for the clean, relative, slash-separated paths produced
by the walk: all components but the last, or `"."` when there is no
separator. -/
def dirOf (p : String) : String :=
  match splitSlash p.data with
  | [] => "."
  | [_] => "."
  | parts => ⟨joinSlash parts.dropLast⟩

/-- Go `filepath.Base` / `path.Base` for clean non-empty relative paths: the
last `/`-separated component. -/
def baseOf (p : String) : String :=
  match (splitSlash p.data).getLast? with
  | none => "."
  | some w => ⟨w⟩

/-! ### The legacy dated-snapshot pattern

`regexp.MustCompile` of `legacy/proto[23]_[0-9]{8}_[0-9a-f]{8}/` in
`generateLocalProtos`; `MatchString` looks for a match anywhere in the
string. -/

/-- Character class `[0-9]`. -/
def isDig (c : Char) : Bool := '0' ≤ c && c ≤ '9'

/-- Character class `[0-9a-f]`. -/
def isHexLower (c : Char) : Bool := isDig c || ('a' ≤ c && c ≤ 'f')

/-- Matches a literal character sequence; returns the rest on success. -/
def matchLit : List Char → List Char → Option (List Char)
  | [], l => some l
  | _ :: _, [] => none
  | p :: ps, c :: cs => if c = p then matchLit ps cs else none

/-- Matches one character satisfying `p`. -/
def matchOne (p : Char → Bool) : List Char → Option (List Char)
  | [] => none
  | c :: cs => if p c then some cs else none

/-- Matches exactly `n` characters satisfying `p`. -/
def matchRun (p : Char → Bool) : Nat → List Char → Option (List Char)
  | 0, l => some l
  | n + 1, l => (matchOne p l).bind (matchRun p n)

/-- Does `legacy/proto[23]_[0-9]{8}_[0-9a-f]{8}/` match at the head of `l`? -/
def legacyAt (l : List Char) : Bool :=
  (((((((matchLit "legacy/proto".data l).bind
    (matchOne (fun c => c = '2' || c = '3'))).bind
    (matchOne (fun c => c = '_'))).bind
    (matchRun isDig 8)).bind
    (matchOne (fun c => c = '_'))).bind
    (matchRun isHexLower 8)).bind
    (matchOne (fun c => c = '/'))).isSome

/-- Unanchored match: the pattern matches at some position. -/
def legacyAnywhere : List Char → Bool
  | [] => legacyAt []
  | c :: cs => legacyAt (c :: cs) || legacyAnywhere cs

/-- `excludeRx.MatchString s` for the legacy dated-snapshot regexp. -/
def excludeRxMatch (s : String) : Bool := legacyAnywhere s.data

/-! ### Static data: the generated-file preamble -/

/-- `generatedPreamble` from the source: the fixed preamble lines. -/
def generatedPreamble : List String :=
  ["// Copyright 2019 The Go Authors. All rights reserved.",
   "// Use of this source code is governed by a BSD-style",
   "// license that can be found in the LICENSE file.",
   "",
   "// Code generated by generate-protos. DO NOT EDIT.",
   ""]

/-! ### Plugin mode (the `init` function)

When the environment variable `RUN_AS_PROTOC_PLUGIN` is non-empty, `init`
runs `protogen.Run` with the loop

    for _, plugin := range strings.Split(plugins, ",") {
      for _, file := range gen.Files {
        if file.Generate {
          switch plugin {
          case "go": gengo.GenerateFile(gen, file); generateFieldNumbers(gen, file)
          case "gogrpc": gengogrpc.GenerateFile(gen, file)
          }
        }
      }
    }

and then calls `os.Exit(0)`, never reaching batch orchestration. We model a
file of the generation request by its index and `Generate` bit, and record
each backend invocation as an event. -/

/-- One file of the decoded `CodeGeneratorRequest`, identified by its position
`idx` in `gen.Files`, with its `Generate` flag. -/
structure GenFile where
  idx : Nat
  generate : Bool
deriving DecidableEq, Repr

/-- A backend invocation performed in plugin mode, on the file at index `f`. -/
inductive PluginEvent where
  | genGo (f : Nat)
  | fieldNumbers (f : Nat)
  | genGoGrpc (f : Nat)
deriving DecidableEq, Repr

/-- The `switch plugin` dispatch of `init`: backend name `"go"` runs the Go
backend and then the field-number extractor; `"gogrpc"` runs the grpc backend;
any other name does nothing. -/
def dispatch (plugin : List Char) (f : GenFile) : List PluginEvent :=
  if plugin = "go".data then [.genGo f.idx, .fieldNumbers f.idx]
  else if plugin = "gogrpc".data then [.genGoGrpc f.idx]
  else []

/-- The event trace of the plugin-mode loop of `init`: outer loop over the
comma-separated backend names, inner loop over the request's files, skipping
files whose `Generate` flag is unset. -/
def pluginRun (plugins : String) (files : List GenFile) : List PluginEvent :=
  ((splitComma plugins.data).map (fun p =>
    (files.map (fun f => if f.generate then dispatch p f else [])).flatten)).flatten

/-- Stated from the claim's words (not the code): iterate per file, applying
the named backends in their listed order to that file. -/
def fileMajorRun (plugins : String) (files : List GenFile) : List PluginEvent :=
  (files.map (fun f =>
    if f.generate then ((splitComma plugins.data).map (fun p => dispatch p f)).flatten
    else [])).flatten

/-- Stated from the amended claim's words: for each backend name in list
order, apply that backend to every generate-marked file in request order. -/
def backendMajorRun (plugins : String) (files : List GenFile) : List PluginEvent :=
  ((splitComma plugins.data).map (fun p =>
    ((files.filter (·.generate)).map (dispatch p)).flatten)).flatten

/-- What the process does at startup, decided by `RUN_AS_PROTOC_PLUGIN` (env
unset reads as `""`): plugin mode runs the loop, writes the combined response
to standard output, and exits before `main`; otherwise `main` runs the batch
orchestration. -/
inductive ProcessOutcome where
  | pluginExit (events : List PluginEvent)
  | batchRun
deriving DecidableEq, Repr

/-- The mode decision of `init`: `if plugins := os.Getenv(...); plugins != ""`. -/
def processStart (env : String) (files : List GenFile) : ProcessOutcome :=
  if env ≠ "" then .pluginExit (pluginRun env files) else .batchRun

/-! ### The Local Batch Generator (`generateLocalProtos`)

The walk body of `generateLocalProtos`, for one job `d` of the `dirs` table.
`filepath.Walk(srcDir, ...)` visits paths under `srcDir = repoRoot / d.path`;
we take the walk as the list of visited paths relative to `srcDir`, so the
absolute path is `repoRoot ++ "/" ++ d.path ++ "/" ++ p` and the repo-relative
path `filepath.Rel(repoRoot, srcPath)` is `d.path ++ "/" ++ p`.

`protoMapOpt()` joins the `protoPackages` map entries in Go-map iteration
order (unspecified); the claims never depend on its content, so the model
takes the resulting option fragment `pmap` as a parameter. -/

/-- One entry of the `dirs` table of `generateLocalProtos`. The Go sets
`annotateFor`/`exclude` (`map[string]bool`) are carried as lists of the paths
mapped to `true`. -/
structure Job where
  path : String
  grpcPlugin : Bool
  annotateFor : List String
  exclude : List String

/-- One `protoc(...)` invocation of the local walk, recorded by the backend
list passed through `RUN_AS_PROTOC_PLUGIN`, the `--go_out` option string, and
the repo-relative proto path argument. -/
structure ProtocCall where
  plugins : String
  opts : String
  relPath : String
deriving DecidableEq, Repr

/-- The walk-body decision for one visited path `p` (relative to the job
root): `none` when no `protoc` invocation is issued for `p` (wrong suffix,
legacy-snapshot path, or excluded path), otherwise the invocation. -/
def callOf (repoRoot pmap : String) (d : Job) (p : String) : Option ProtocCall :=
  let srcPath := repoRoot ++ "/" ++ d.path ++ "/" ++ p
  if !hasSuffix srcPath ".proto" || excludeRxMatch srcPath then none
  else
    let relPath := d.path ++ "/" ++ p
    if relPath ∈ d.exclude then none
    else
      let opts := "paths=source_relative," ++ pmap ++
        (if relPath ∈ d.annotateFor then ",annotate_code" else "")
      some { plugins := "go" ++ (if d.grpcPlugin then ",gogrpc" else ""),
             opts := opts, relPath := relPath }

/-- The walk-body `subDirs` contribution for one visited path `p`: recorded
before the exclude check, so every non-legacy `.proto` path contributes
`filepath.Dir` of its job-root-relative path. -/
def subOf (repoRoot : String) (d : Job) (p : String) : Option String :=
  let srcPath := repoRoot ++ "/" ++ d.path ++ "/" ++ p
  if !hasSuffix srcPath ".proto" || excludeRxMatch srcPath then none
  else some (dirOf p)

/-- All `protoc` invocations issued while walking the visited paths `ps`. -/
def jobCalls (repoRoot pmap : String) (d : Job) (ps : List String) : List ProtocCall :=
  ps.filterMap (callOf repoRoot pmap d)

/-- All `subDirs` contributions of the walk, in visit order (the Go map
deduplicates; we keep the list and deduplicate where it is read). -/
def jobSubs (repoRoot : String) (d : Job) (ps : List String) : List String :=
  ps.filterMap (subOf repoRoot d)

/-- `path.Join(modulePath, d.path, sd)` for the clean inputs that arise here:
`path.Join` drops the `"."` produced by `filepath.Dir` for top-level files. -/
def importJoin (modulePath dpath sd : String) : String :=
  if sd = "." then modulePath ++ "/" ++ dpath else modulePath ++ "/" ++ dpath ++ "/" ++ sd

/-- `fmt.Sprintf("_ %q", ...)` applied to one discovered sub-package: `%q` is
plain quoting on these escape-free path strings. -/
def importLineOf (modulePath dpath sd : String) : String :=
  "_ \"" ++ importJoin modulePath dpath sd ++ "\""

/-- Joining lines with `"\n"` (`strings.Join(lines, "\n")`). -/
def joinNL (lines : List String) : String :=
  ⟨joinWith '\n' (lines.map String.data)⟩

/-- The sorted blank-import lines of the synthesized `gen_test.go`: one line
per distinct discovered sub-directory, passed through `sort.Strings`. The Go
map enumerates its keys in unspecified order; `List.dedup` picks one
enumeration, and sorting makes the result enumeration-independent (proved
below). -/
def sortedImports (modulePath : String) (d : Job) (subs : List String) : List String :=
  ((subs.dedup).map (importLineOf modulePath d.path)).mergeSort

/-- The source text handed to `format.Source` for the synthesized
`gen_test.go` of a testdata job: preamble, `package main`, and the
blank-import block. (`format.Source` is the external formatter, out of scope;
the claims are about the synthesized content.) -/
def synthFile (modulePath : String) (d : Job) (subs : List String) : String :=
  joinNL (generatedPreamble ++
    ["package main", "",
     "import (" ++ joinNL (sortedImports modulePath d subs) ++ ")"])

/-- The per-job synthesis step: only jobs whose root's base name is
`"testdata"` get a `gen_test.go`. -/
def genTestFile (repoRoot modulePath : String) (d : Job) (ps : List String) :
    Option String :=
  if baseOf d.path = "testdata" then
    some (synthFile modulePath d (jobSubs repoRoot d ps))
  else none

/-! ### Helper lemmas for the plugin-mode and walk models -/

/-- Skipping files whose `Generate` flag is unset is the same as filtering
them out first. -/
theorem flatten_map_generate (p : List Char) (files : List GenFile) :
    (files.map (fun f => if f.generate then dispatch p f else [])).flatten =
      ((files.filter (·.generate)).map (dispatch p)).flatten := by
  induction files with
  | nil => rfl
  | cons f rest ih =>
    by_cases hg : f.generate <;>
      simp [List.filter_cons, hg, ih]

/-- The plugin-mode loop of `init` is backend-major: each backend, in list
order, is applied to every generate-marked file in request order. -/
theorem pluginRun_eq_backendMajor (plugins : String) (files : List GenFile) :
    pluginRun plugins files = backendMajorRun plugins files := by
  unfold pluginRun backendMajorRun
  congr 1
  exact List.map_congr_left (fun p _ => flatten_map_generate p files)

/-- The backend list recorded on every walk invocation is determined by the
job's grpc flag. -/
theorem callOf_plugins {repoRoot pmap : String} {d : Job} {p : String}
    {c : ProtocCall} (h : callOf repoRoot pmap d p = some c) :
    c.plugins = "go" ++ (if d.grpcPlugin then ",gogrpc" else "") := by
  unfold callOf at h
  repeat' split at h
  all_goals simp_all
  all_goals rw [← h.2.2]

/-- Claim C1, as frozen, is false of the code: for a job with the grpc flag
set, the backend-name list passed through `RUN_AS_PROTOC_PLUGIN` is
`"go,gogrpc"`, which is not the claimed `"go,grpc"`. -/
theorem C1_counterexample :
    (jobCalls "root" "Mmap" ⟨"cmd/protoc-gen-go-grpc/testdata", true, [], []⟩
        ["test/test.proto"]).map ProtocCall.plugins = ["go,gogrpc"] ∧
      ("go,gogrpc" : String) ≠ "go,grpc" := by
  constructor
  · decide
  · decide

/-- Claim C1 (amended): for every description file that is generated by the
Local Batch Generator, the backend-name list passed to the toolchain
invocation is exactly `"go"` when the job's grpc flag is unset, and exactly
`"go,gogrpc"` when the flag is set. -/
theorem C1_theorem (repoRoot pmap : String) (d : Job) (ps : List String) :
    ∀ c ∈ jobCalls repoRoot pmap d ps,
      c.plugins = if d.grpcPlugin then "go,gogrpc" else "go" := by
  intro c hc
  obtain ⟨p, _, hp⟩ := List.mem_filterMap.mp hc
  rw [callOf_plugins hp]
  cases d.grpcPlugin <;> rfl

/-- Witness for C1: the amended statement evaluated on the one invocation a
grpc job issues for one walked proto file. -/
theorem C1_witness :
    (⟨"go,gogrpc", "paths=source_relative,Mmap",
        "cmd/protoc-gen-go-grpc/testdata/test/test.proto"⟩ : ProtocCall).plugins =
      if true then "go,gogrpc" else "go" :=
  C1_theorem "root" "Mmap" ⟨"cmd/protoc-gen-go-grpc/testdata", true, [], []⟩
    ["test/test.proto"]
    ⟨"go,gogrpc", "paths=source_relative,Mmap",
      "cmd/protoc-gen-go-grpc/testdata/test/test.proto"⟩ (by decide)

/-- Claim C2, as frozen, is false of the code: with backends `"go,gogrpc"`
and two files requiring generation, the code's trace (outer loop over
backends) differs from the claimed per-file iteration, which would interleave
the backends file by file. -/
theorem C2_counterexample :
    pluginRun "go,gogrpc" [⟨0, true⟩, ⟨1, true⟩] ≠
      fileMajorRun "go,gogrpc" [⟨0, true⟩, ⟨1, true⟩] := by
  decide

/-- Claim C2 (amended): in plugin mode the process invokes each backend named
in the comma-separated environment list in list order, applying it to every
file of the decoded request that is marked as requiring generation, in
request order (backend-major iteration: all files receive one backend before
the next backend runs); the combined result is written to standard output and
the process terminates without performing batch orchestration. -/
theorem C2_theorem (env : String) (files : List GenFile) (h : env ≠ "") :
    processStart env files = .pluginExit (backendMajorRun env files) := by
  unfold processStart
  rw [if_pos h, pluginRun_eq_backendMajor]

/-- Witness for C2: the amended statement evaluated at a concrete non-empty
environment value and request. -/
theorem C2_witness :
    processStart "go,gogrpc" [⟨0, true⟩, ⟨1, false⟩] =
      .pluginExit (backendMajorRun "go,gogrpc" [⟨0, true⟩, ⟨1, false⟩]) :=
  C2_theorem "go,gogrpc" [⟨0, true⟩, ⟨1, false⟩] (by decide)

/-- Left cancellation for string append, through the underlying lists. -/
theorem str_append_cancel_left {a b c : String} (h : a ++ b = a ++ c) : b = c := by
  have hd : (a ++ b).data = (a ++ c).data := by rw [h]
  simp only [String.data_append] at hd
  exact String.ext (List.append_cancel_left hd)

/-- A successful walk-body invocation records the repo-relative path of the
visited file. -/
theorem callOf_relPath {repoRoot pmap : String} {d : Job} {p : String}
    {c : ProtocCall} (h : callOf repoRoot pmap d p = some c) :
    c.relPath = d.path ++ "/" ++ p := by
  unfold callOf at h
  repeat' split at h
  all_goals simp_all
  all_goals rw [← h.2.2]

/-- A successful walk-body invocation implies that the walk guards passed:
the visited path is a `.proto` file outside the legacy dated-snapshot
pattern and outside the job's exclude set. -/
theorem callOf_guards {repoRoot pmap : String} {d : Job} {p : String}
    {c : ProtocCall} (h : callOf repoRoot pmap d p = some c) :
    excludeRxMatch (repoRoot ++ "/" ++ d.path ++ "/" ++ p) = false ∧
      d.path ++ "/" ++ p ∉ d.exclude := by
  unfold callOf at h
  repeat' split at h
  all_goals simp_all

/-- Reassociation of the absolute source path. -/
theorem srcPath_assoc (repoRoot dpath p : String) :
    repoRoot ++ "/" ++ dpath ++ "/" ++ p = repoRoot ++ "/" ++ (dpath ++ "/" ++ p) := by
  simp [String.append_assoc]

/-- Claim C4: during a Local Batch Generator pass, a description file whose
path matches the legacy dated-snapshot pattern, or whose repo-relative path is
in the job's exclude set, is never passed to the toolchain: every issued
invocation concerns a path that matches neither exclusion. -/
theorem C4_theorem (repoRoot pmap : String) (d : Job) (ps : List String) :
    ∀ c ∈ jobCalls repoRoot pmap d ps,
      excludeRxMatch (repoRoot ++ "/" ++ c.relPath) = false ∧
        c.relPath ∉ d.exclude := by
  intro c hc
  obtain ⟨p, _, hp⟩ := List.mem_filterMap.mp hc
  obtain ⟨hrx, hex⟩ := callOf_guards hp
  rw [callOf_relPath hp, ← srcPath_assoc]
  exact ⟨hrx, hex⟩

/-- Witness for C4: the invocation issued for a non-excluded proto of the
`internal/testprotos` job satisfies both exclusion guarantees. -/
theorem C4_witness :
    excludeRxMatch ("root" ++ "/" ++ "internal/testprotos/a/x.proto") = false ∧
      "internal/testprotos/a/x.proto" ∉
        ["internal/testprotos/irregular/irregular.proto"] :=
  C4_theorem "root" "M" ⟨"internal/testprotos", false, [],
      ["internal/testprotos/irregular/irregular.proto"]⟩ ["a/x.proto"]
    ⟨"go", "paths=source_relative,M", "internal/testprotos/a/x.proto"⟩ (by decide)

/-- The sorted import block depends only on the set of discovered
sub-directories: any two discovery orders of the same multiset give the same
sorted list. -/
theorem sortedImports_perm (modulePath : String) (d : Job) {xs ys : List String}
    (h : List.Perm xs ys) :
    sortedImports modulePath d xs = sortedImports modulePath d ys := by
  unfold sortedImports
  refine List.eq_of_perm_of_sorted ?_ (List.sorted_mergeSort' _) (List.sorted_mergeSort' _)
  exact ((List.mergeSort_perm _ _).trans ((h.dedup).map _)).trans
    (List.mergeSort_perm _ _).symm

/-- Every discovered sub-directory's import line ends up in the sorted import
block. -/
theorem mem_sortedImports (modulePath : String) (d : Job) {sd : String}
    {xs : List String} (h : sd ∈ xs) :
    importLineOf modulePath d.path sd ∈ sortedImports modulePath d xs := by
  unfold sortedImports
  rw [(List.mergeSort_perm _ _).mem_iff]
  exact List.mem_map_of_mem _ (List.mem_dedup.mpr h)

/-- Claim C5: for every local job whose root directory is named `testdata`,
exactly one source file is synthesized; its blank-import list contains every
sub-package directory discovered during the walk, is sorted lexicographically,
is identical for every discovery order of the same visit multiset, and the
file consists of the fixed generated-file preamble followed by the package
clause and the import block. -/
theorem C5_theorem (repoRoot modulePath : String) (d : Job) (ps qs : List String)
    (hbase : baseOf d.path = "testdata") (hperm : List.Perm ps qs) :
    ∃ s, genTestFile repoRoot modulePath d ps = some s ∧
      genTestFile repoRoot modulePath d qs = some s ∧
      List.Sorted (· ≤ ·) (sortedImports modulePath d (jobSubs repoRoot d ps)) ∧
      (∀ sd ∈ jobSubs repoRoot d ps,
        importLineOf modulePath d.path sd ∈
          sortedImports modulePath d (jobSubs repoRoot d ps)) ∧
      s = joinNL (generatedPreamble ++
        ["package main", "",
         "import (" ++ joinNL (sortedImports modulePath d (jobSubs repoRoot d ps)) ++ ")"]) := by
  refine ⟨synthFile modulePath d (jobSubs repoRoot d ps), ?_, ?_, ?_, ?_, rfl⟩
  · unfold genTestFile
    rw [if_pos hbase]
  · unfold genTestFile
    rw [if_pos hbase]
    unfold synthFile
    have hsubs : sortedImports modulePath d (jobSubs repoRoot d ps) =
        sortedImports modulePath d (jobSubs repoRoot d qs) :=
      sortedImports_perm modulePath d (hperm.filterMap (subOf repoRoot d))
    rw [← hsubs]
  · exact List.sorted_mergeSort' _
  · intro sd hsd
    exact mem_sortedImports modulePath d hsd

/-- Witness for C5: a testdata job walked in two different orders over three
sub-packages yields one identical, sorted, complete import file. -/
theorem C5_witness :
    ∃ s, genTestFile "root" "mod" ⟨"cmd/protoc-gen-go/testdata", false, [], []⟩
        ["b/x.proto", "a/y.proto", "c/z.proto"] = some s ∧
      genTestFile "root" "mod" ⟨"cmd/protoc-gen-go/testdata", false, [], []⟩
        ["c/z.proto", "a/y.proto", "b/x.proto"] = some s ∧
      List.Sorted (· ≤ ·) (sortedImports "mod" ⟨"cmd/protoc-gen-go/testdata", false, [], []⟩
        (jobSubs "root" ⟨"cmd/protoc-gen-go/testdata", false, [], []⟩
          ["b/x.proto", "a/y.proto", "c/z.proto"])) ∧
      (∀ sd ∈ jobSubs "root" ⟨"cmd/protoc-gen-go/testdata", false, [], []⟩
          ["b/x.proto", "a/y.proto", "c/z.proto"],
        importLineOf "mod" "cmd/protoc-gen-go/testdata" sd ∈
          sortedImports "mod" ⟨"cmd/protoc-gen-go/testdata", false, [], []⟩
            (jobSubs "root" ⟨"cmd/protoc-gen-go/testdata", false, [], []⟩
              ["b/x.proto", "a/y.proto", "c/z.proto"])) ∧
      s = joinNL (generatedPreamble ++
        ["package main", "",
         "import (" ++ joinNL (sortedImports "mod" ⟨"cmd/protoc-gen-go/testdata", false, [], []⟩
           (jobSubs "root" ⟨"cmd/protoc-gen-go/testdata", false, [], []⟩
             ["b/x.proto", "a/y.proto", "c/z.proto"])) ++ ")"]) :=
  C5_theorem "root" "mod" ⟨"cmd/protoc-gen-go/testdata", false, [], []⟩
    ["b/x.proto", "a/y.proto", "c/z.proto"] ["c/z.proto", "a/y.proto", "b/x.proto"]
    (by decide) (by decide)

/-- Claim C10: for a testdata job, a description file in the job's exclude set
still contributes its containing sub-directory to the synthesized blank-import
file — the sub-directory is recorded before the exclusion check — while no
toolchain invocation is issued for that file. -/
theorem C10_theorem (repoRoot pmap modulePath : String) (d : Job)
    (ps : List String) (p : String)
    (hbase : baseOf d.path = "testdata") (hp : p ∈ ps)
    (hsuf : hasSuffix (repoRoot ++ "/" ++ d.path ++ "/" ++ p) ".proto" = true)
    (hrx : excludeRxMatch (repoRoot ++ "/" ++ d.path ++ "/" ++ p) = false)
    (hex : d.path ++ "/" ++ p ∈ d.exclude) :
    dirOf p ∈ jobSubs repoRoot d ps ∧
      (∃ s, genTestFile repoRoot modulePath d ps = some s ∧
        importLineOf modulePath d.path (dirOf p) ∈
          sortedImports modulePath d (jobSubs repoRoot d ps)) ∧
      ∀ c ∈ jobCalls repoRoot pmap d ps, c.relPath ≠ d.path ++ "/" ++ p := by
  have hsub : subOf repoRoot d p = some (dirOf p) := by
    unfold subOf
    simp [hsuf, hrx]
  have hmem : dirOf p ∈ jobSubs repoRoot d ps :=
    List.mem_filterMap.mpr ⟨p, hp, hsub⟩
  refine ⟨hmem, ⟨synthFile modulePath d (jobSubs repoRoot d ps), ?_, ?_⟩, ?_⟩
  · unfold genTestFile
    rw [if_pos hbase]
  · exact mem_sortedImports modulePath d hmem
  · intro c hc heq
    obtain ⟨q, _, hq⟩ := List.mem_filterMap.mp hc
    have hrel : c.relPath = d.path ++ "/" ++ q := callOf_relPath hq
    have hqp : q = p := by
      apply str_append_cancel_left (a := d.path ++ "/")
      rw [← hrel, heq]
    rw [hqp] at hq
    exact (callOf_guards hq).2 hex

/-- Witness for C10: an excluded proto under a testdata root contributes its
directory to the import file while generating no toolchain invocation. -/
theorem C10_witness :
    dirOf "irregular/irregular.proto" ∈
      jobSubs "root" ⟨"internal/testprotos/testdata", false, [],
        ["internal/testprotos/testdata/irregular/irregular.proto"]⟩
        ["irregular/irregular.proto", "a/x.proto"] ∧
      (∃ s, genTestFile "root" "mod" ⟨"internal/testprotos/testdata", false, [],
          ["internal/testprotos/testdata/irregular/irregular.proto"]⟩
          ["irregular/irregular.proto", "a/x.proto"] = some s ∧
        importLineOf "mod" "internal/testprotos/testdata" (dirOf "irregular/irregular.proto") ∈
          sortedImports "mod" ⟨"internal/testprotos/testdata", false, [],
            ["internal/testprotos/testdata/irregular/irregular.proto"]⟩
            (jobSubs "root" ⟨"internal/testprotos/testdata", false, [],
              ["internal/testprotos/testdata/irregular/irregular.proto"]⟩
              ["irregular/irregular.proto", "a/x.proto"])) ∧
      ∀ c ∈ jobCalls "root" "M" ⟨"internal/testprotos/testdata", false, [],
          ["internal/testprotos/testdata/irregular/irregular.proto"]⟩
          ["irregular/irregular.proto", "a/x.proto"],
        c.relPath ≠ "internal/testprotos/testdata" ++ "/" ++ "irregular/irregular.proto" :=
  C10_theorem "root" "M" "mod"
    ⟨"internal/testprotos/testdata", false, [],
      ["internal/testprotos/testdata/irregular/irregular.proto"]⟩
    ["irregular/irregular.proto", "a/x.proto"] "irregular/irregular.proto"
    (by decide) (by decide) (by decide) (by decide) (by decide)

/-! ### The Sync Engine (`syncOutput` and `copyFile`)

`syncOutput(dstDir, srcDir)` walks the staging directory `srcDir`; for every
`.go`/`.meta` file it either copies the staged content over the destination
(apply mode, `run = true`), printing `# relPath`, or shells out to `diff`
(diff mode), printing a unified diff and mutating nothing.

The destination tree is a partial map from destination-relative path to file
content (`none` = no such file); the staged tree is the walked list of
`(relative path, content)` pairs in visit order. `copyFile`'s
`MkdirAll`+`WriteFile` is the map update. -/

/-- Writing one file: `copyFile(dstPath, srcPath)` at key `k`, content `v`. -/
def setFile (m : String → Option String) (k v : String) : String → Option String :=
  fun q => if q = k then some v else m q

/-- The walk filter of `syncOutput`: only generated sources and metadata. -/
def syncKeep (srcDir rel : String) : Bool :=
  hasSuffix (srcDir ++ "/" ++ rel) ".go" || hasSuffix (srcDir ++ "/" ++ rel) ".meta"

/-- One line of `syncOutput` output: an applied path (`# rel`), or one `diff`
invocation with the two compared sides (destination side `none` when the
destination file is missing, which `diff -N` treats as empty). -/
inductive SyncEvent where
  | applied (rel : String)
  | diffed (rel : String) (dstSide : Option String) (staged : String)
deriving DecidableEq, Repr

/-- The Sync Engine pass: `run` is the `-execute` flag. Returns the final
destination tree and the printed report, in walk order. (The walk body's
early `return nil` on a non-`.go`/`.meta` file is the `else` branch here.) -/
def syncOutput (run : Bool) (srcDir : String) (dst : String → Option String) :
    List (String × String) → (String → Option String) × List SyncEvent
  | [] => (dst, [])
  | (rel, content) :: rest =>
    if syncKeep srcDir rel then
      if run then
        let r := syncOutput run srcDir (setFile dst rel content) rest
        (r.1, .applied rel :: r.2)
      else
        let r := syncOutput run srcDir dst rest
        (r.1, .diffed rel (dst rel) content :: r.2)
    else syncOutput run srcDir dst rest

/-- The kept (synchronized) relative paths of a staged tree. -/
def keptKeys (srcDir : String) (staged : List (String × String)) : List String :=
  (staged.filter (fun f => syncKeep srcDir f.1)).map Prod.fst

/-- A path no staged file is synchronized to keeps its destination content,
in either mode. -/
theorem syncOutput_apply_not_kept (run : Bool) (srcDir : String)
    (dst : String → Option String) (staged : List (String × String)) (q : String)
    (h : q ∉ keptKeys srcDir staged) :
    (syncOutput run srcDir dst staged).1 q = dst q := by
  induction staged generalizing dst with
  | nil => rfl
  | cons f rest ih =>
    obtain ⟨rel, content⟩ := f
    by_cases hk : syncKeep srcDir rel
    · have hne : q ≠ rel := by
        intro hqr
        exact h (by simp [keptKeys, List.filter_cons, hk, hqr])
      have hrest : q ∉ keptKeys srcDir rest := by
        intro hq
        exact h (by simp [keptKeys, List.filter_cons, hk] at hq ⊢; exact Or.inr hq)
      cases run with
      | true =>
        simp only [syncOutput, hk, if_true]
        rw [ih _ hrest]
        simp [setFile, hne]
      | false =>
        simp only [syncOutput, hk, if_true]
        exact ih _ hrest
    · have hrest : q ∉ keptKeys srcDir rest := by
        simpa [keptKeys, List.filter_cons, hk] using h
      simp only [syncOutput, hk]
      simp only [Bool.false_eq_true, if_false]
      exact ih _ hrest

/-- In apply mode, the final content at a synchronized path does not depend
on the initial destination tree. -/
theorem syncOutput_apply_kept_indep (srcDir : String)
    (staged : List (String × String)) (q : String)
    (h : q ∈ keptKeys srcDir staged) (a b : String → Option String) :
    (syncOutput true srcDir a staged).1 q = (syncOutput true srcDir b staged).1 q := by
  induction staged generalizing a b with
  | nil => simp [keptKeys] at h
  | cons f rest ih =>
    obtain ⟨rel, content⟩ := f
    by_cases hk : syncKeep srcDir rel
    · simp only [syncOutput, hk, if_true]
      by_cases hq : q ∈ keptKeys srcDir rest
      · exact ih hq _ _
      · have hqr : q = rel := by
          simp [keptKeys, List.filter_cons, hk] at h
          rcases h with h | h
          · exact h
          · exact absurd (by simpa [keptKeys] using h) hq
        rw [syncOutput_apply_not_kept _ _ _ _ _ hq,
          syncOutput_apply_not_kept _ _ _ _ _ hq]
        simp [setFile, hqr]
    · have hrest : q ∈ keptKeys srcDir rest := by
        simpa [keptKeys, List.filter_cons, hk] using h
      simp only [syncOutput, hk]
      simp only [Bool.false_eq_true, if_false]
      exact ih hrest _ _

/-- In apply mode the printed report does not depend on the destination. -/
theorem syncOutput_apply_events (srcDir : String)
    (staged : List (String × String)) (a b : String → Option String) :
    (syncOutput true srcDir a staged).2 = (syncOutput true srcDir b staged).2 := by
  induction staged generalizing a b with
  | nil => rfl
  | cons f rest ih =>
    obtain ⟨rel, content⟩ := f
    by_cases hk : syncKeep srcDir rel <;>
      simp only [syncOutput, hk, if_true, Bool.false_eq_true, if_false,
        List.cons.injEq, true_and] <;>
      exact ih _ _

/-- Claim C6: the Sync Engine in apply mode is idempotent — applying the same
staged tree twice yields the same destination content as applying it once,
and both applications print the same report. -/
theorem C6_theorem (srcDir : String) (dst : String → Option String)
    (staged : List (String × String)) :
    (syncOutput true srcDir (syncOutput true srcDir dst staged).1 staged).1 =
        (syncOutput true srcDir dst staged).1 ∧
      (syncOutput true srcDir (syncOutput true srcDir dst staged).1 staged).2 =
        (syncOutput true srcDir dst staged).2 := by
  constructor
  · funext q
    by_cases hq : q ∈ keptKeys srcDir staged
    · exact syncOutput_apply_kept_indep srcDir staged q hq _ _
    · rw [syncOutput_apply_not_kept _ _ _ _ _ hq,
        syncOutput_apply_not_kept _ _ _ _ _ hq]
  · exact syncOutput_apply_events srcDir staged _ _

/-- Claim C7: a Sync Engine pass in diff mode leaves every destination file
unchanged, for every staging and destination state; and in apply mode every
change writes content read from the staging area — any path whose content
changes is a synchronized staged path and receives exactly its staged
content. -/
theorem C7_theorem (srcDir : String) (dst : String → Option String)
    (staged : List (String × String)) :
    (syncOutput false srcDir dst staged).1 = dst ∧
      ∀ q, (syncOutput true srcDir dst staged).1 q = dst q ∨
        ∃ c, (q, c) ∈ staged ∧ syncKeep srcDir q = true ∧
          (syncOutput true srcDir dst staged).1 q = some c := by
  constructor
  · funext q
    induction staged generalizing dst with
    | nil => rfl
    | cons f rest ih =>
      obtain ⟨rel, content⟩ := f
      by_cases hk : syncKeep srcDir rel <;>
        simp only [syncOutput, hk, if_true, Bool.false_eq_true, if_false] <;>
        exact ih dst
  · intro q
    induction staged generalizing dst with
    | nil => exact Or.inl rfl
    | cons f rest ih =>
      obtain ⟨rel, content⟩ := f
      by_cases hk : syncKeep srcDir rel
      · simp only [syncOutput, hk, if_true]
        rcases ih (setFile dst rel content) with h | ⟨c, hc, hkc, hres⟩
        · rw [h]
          unfold setFile
          by_cases hqr : q = rel
          · subst hqr
            exact Or.inr ⟨content, List.mem_cons_self _ _, hk, by simp⟩
          · simp only [if_neg hqr]
            exact Or.inl (by trivial)
        · exact Or.inr ⟨c, List.mem_cons_of_mem _ hc, hkc, hres⟩
      · simp only [syncOutput, hk]
        simp only [Bool.false_eq_true, if_false]
        rcases ih dst with h | ⟨c, hc, hkc, hres⟩
        · exact Or.inl h
        · exact Or.inr ⟨c, List.mem_cons_of_mem _ hc, hkc, hres⟩

/-! ### Staging-directory lifetime (`ioutil.TempDir` / `defer os.RemoveAll` / `check`)

Both generation passes have the shape

    tmpDir, err := ioutil.TempDir(repoRoot, "tmp")
    check(err)
    defer os.RemoveAll(tmpDir)
    ... sequential steps, each aborting via check(err) → panic ...

Go's `defer` runs the deferred call when the surrounding function returns
*and* when it unwinds on panic, so `os.RemoveAll(tmpDir)` runs on every
execution path. `check` turns any error into a panic that aborts the run;
there is no recover anywhere, so no retry and no partial-success
continuation.

The model: the filesystem state tracks the existing directories and the
trace of steps executed so far; a pass body is a list of steps (toolchain
invocations, decodes, file writes — the step type is abstract), each of which
either succeeds or panics according to an oracle. `withCleanup` is the
semantics of one `defer`red call: it runs after the body whether the body
returned or panicked, and the panic keeps propagating. -/

/-- Filesystem-and-trace state for one generation pass. -/
structure PassSt (α : Type) where
  dirs : List String
  executed : List α

/-- A panic aborting the run (the argument of `check`'s `panic(err)`). -/
inductive PanicErr where
  | failed
deriving DecidableEq, Repr

/-- Go `defer` semantics for one deferred call: run the body, then the
deferred `clean` — on the normal path and on the panic path alike — and let a
panic keep propagating. -/
def withCleanup {α : Type} (body : PassSt α → Option PanicErr × PassSt α)
    (clean : PassSt α → PassSt α) (s : PassSt α) : Option PanicErr × PassSt α :=
  let r := body s
  (r.1, clean r.2)

/-- `os.RemoveAll(tmp)`: the directory (and anything of its name) is gone. -/
def removeAll {α : Type} (tmp : String) (s : PassSt α) : PassSt α :=
  { s with dirs := s.dirs.filter (fun d => d ≠ tmp) }

/-- The sequential step loop of a pass body: each step either succeeds (and
is recorded as executed) or `check` panics at that step, executing nothing
further — no retry, no partial-success continuation. -/
def runSteps {α : Type} (oracle : α → Bool) :
    List α → PassSt α → Option PanicErr × PassSt α
  | [], s => (none, s)
  | c :: rest, s =>
    if oracle c then runSteps oracle rest { s with executed := s.executed ++ [c] }
    else (some .failed, { s with executed := s.executed ++ [c] })

/-- One generation pass (`generateLocalProtos` / `generateRemoteProtos`):
create the ephemeral staging directory, run the body steps, and remove the
staging directory via the deferred `os.RemoveAll` on the way out. -/
def generatePass {α : Type} (tmp : String) (oracle : α → Bool) (steps : List α)
    (s : PassSt α) : Option PanicErr × PassSt α :=
  withCleanup (runSteps oracle steps) (removeAll tmp)
    { s with dirs := tmp :: s.dirs }

/-- RemoveAll leaves no trace of the staging directory. -/
theorem removeAll_not_mem {α : Type} (tmp : String) (s : PassSt α) :
    tmp ∉ (removeAll tmp s).dirs := by
  intro h
  rcases List.mem_filter.mp h with ⟨_, hne⟩
  simp at hne

/-- The step loop executes exactly the successful prefix, plus the first
failing step when there is one, and panics exactly when some step fails. -/
theorem runSteps_spec {α : Type} (oracle : α → Bool) (steps : List α)
    (s : PassSt α) :
    (runSteps oracle steps s).2.executed =
        s.executed ++ steps.takeWhile oracle ++ (steps.dropWhile oracle).take 1 ∧
      (runSteps oracle steps s).2.dirs = s.dirs ∧
      ((runSteps oracle steps s).1 = none ↔ steps.all oracle) := by
  induction steps generalizing s with
  | nil => simp [runSteps]
  | cons c rest ih =>
    by_cases hc : oracle c
    · have := ih { s with executed := s.executed ++ [c] }
      simp only [runSteps, hc, if_true, List.takeWhile_cons, List.dropWhile_cons,
        List.all_cons] at *
      refine ⟨?_, this.2.1, ?_⟩
      · rw [this.1]
        simp
      · rw [this.2.2]
        simp [hc]
    · simp [runSteps, hc, List.takeWhile_cons, List.dropWhile_cons]

/-- Claim C8: for every generation pass, the ephemeral staging directory is
removed by the end of the pass on every execution path — whatever steps fail
— and any failure aborts the whole run after the failing step with no retry
and no partial-success continuation: the executed trace is exactly the
successful prefix plus the first failing step, and the pass panics exactly
when some step fails. -/
theorem C8_theorem {α : Type} (tmp : String) (oracle : α → Bool)
    (steps : List α) (s : PassSt α) :
    tmp ∉ (generatePass tmp oracle steps s).2.dirs ∧
      (generatePass tmp oracle steps s).2.executed =
        s.executed ++ steps.takeWhile oracle ++ (steps.dropWhile oracle).take 1 ∧
      ((generatePass tmp oracle steps s).1 = none ↔ steps.all oracle) := by
  obtain ⟨hex, _, hok⟩ :=
    runSteps_spec oracle steps { s with dirs := tmp :: s.dirs }
  exact ⟨removeAll_not_mem tmp _, by simpa using hex, by simpa using hok⟩

/-! ### The Remote Batch Generator's field_mask relocation

After its target loop, `generateRemoteProtos` runs

    copyFile(
      filepath.Join(tmpDir, "google.golang.org/protobuf/internal/testprotos/fieldmaskpb/field_mask.pb.go"),
      filepath.Join(tmpDir, "google.golang.org/genproto/protobuf/field_mask/field_mask.pb.go"),
    )

`copyFile(dstPath, srcPath)` reads `srcPath` (aborting on error) and writes
its bytes at `dstPath`, creating directories as needed and overwriting any
existing file. The staging area is a partial map from `tmpDir`-relative path
to content. -/

/-- `copyFile(dstPath, srcPath)` on a file map: `none` models the
`check(err)` panic when reading the source fails. -/
def copyFile (fs : String → Option String) (dstPath srcPath : String) :
    Option (String → Option String) :=
  match fs srcPath with
  | none => none
  | some b => some (setFile fs dstPath b)

/-- The historical staging location of the generated field_mask package
(under `google.golang.org/genproto`). -/
def oldFieldMaskPath : String :=
  "google.golang.org/genproto/protobuf/field_mask/field_mask.pb.go"

/-- The new canonical staging location of the generated field_mask package
(the module-internal `fieldmaskpb` copy). -/
def newFieldMaskPath : String :=
  "google.golang.org/protobuf/internal/testprotos/fieldmaskpb/field_mask.pb.go"

/-- The post-target-loop special case of `generateRemoteProtos`, applied to
the staging area the target loop produced. -/
def remoteFieldMaskFix (staging : String → Option String) :
    Option (String → Option String) :=
  copyFile staging newFieldMaskPath oldFieldMaskPath

/-- Claim C9: after all remote targets have been processed, the generated
field_mask file is copied within the staging area from its old historical
location to its new canonical location, overwriting whatever was there, so
that the new location's content then equals the old location's content. -/
theorem C9_theorem (staging : String → Option String) (b : String)
    (h : staging oldFieldMaskPath = some b) :
    remoteFieldMaskFix staging = some (setFile staging newFieldMaskPath b) ∧
      (setFile staging newFieldMaskPath b) newFieldMaskPath = some b ∧
      (setFile staging newFieldMaskPath b) oldFieldMaskPath =
        staging oldFieldMaskPath := by
  refine ⟨?_, ?_, ?_⟩
  · unfold remoteFieldMaskFix copyFile
    rw [h]
  · simp [setFile]
  · unfold setFile
    rw [if_neg (by decide)]

/-- Witness for C9: a staging area holding distinct content at the two
locations; the copy overwrites the new location with the old one's bytes. -/
theorem C9_witness :
    remoteFieldMaskFix
        (fun p => if p = oldFieldMaskPath then some "old bytes" else some "stale") =
      some (setFile
        (fun p => if p = oldFieldMaskPath then some "old bytes" else some "stale")
        newFieldMaskPath "old bytes") ∧
      (setFile
        (fun p => if p = oldFieldMaskPath then some "old bytes" else some "stale")
        newFieldMaskPath "old bytes") newFieldMaskPath = some "old bytes" ∧
      (setFile
        (fun p => if p = oldFieldMaskPath then some "old bytes" else some "stale")
        newFieldMaskPath "old bytes") oldFieldMaskPath =
        (fun p => if p = oldFieldMaskPath then some "old bytes" else some "stale")
          oldFieldMaskPath :=
  C9_theorem (fun p => if p = oldFieldMaskPath then some "old bytes" else some "stale")
    "old bytes" (by simp)

/-! ### The Field-Number Extractor (`generateFieldNumbers`)

Descriptor data as `generateFieldNumbers` reads it through `protogen` /
`protoreflect`: a file has a declared package, a path, and top-level
messages; a message has a Go name (`GoIdent.GoName`), a fully qualified
descriptor name (`Desc.FullName()`), fields in declaration order, and nested
messages in declaration order; a field has a Go name, a number, a
cardinality, a kind, and — for enum-, message- or group-kind fields — the
referenced type's fully qualified descriptor name (`fd.Enum().FullName()` /
`fd.Message().FullName()`, unused for scalar kinds). -/

/-- `protoreflect.Kind`, with `kindStr` giving Go's `Kind.String()` value. -/
inductive Kind where
  | double | float | int64 | uint64 | int32 | fixed64 | fixed32
  | boolKind | stringKind | groupKind | messageKind | bytes | uint32
  | enumKind | sfixed32 | sfixed64 | sint32 | sint64
deriving DecidableEq, Repr

/-- Go's `Kind.String()`. -/
def kindStr : Kind → String
  | .double => "double" | .float => "float" | .int64 => "int64"
  | .uint64 => "uint64" | .int32 => "int32" | .fixed64 => "fixed64"
  | .fixed32 => "fixed32" | .boolKind => "bool" | .stringKind => "string"
  | .groupKind => "group" | .messageKind => "message" | .bytes => "bytes"
  | .uint32 => "uint32" | .enumKind => "enum" | .sfixed32 => "sfixed32"
  | .sfixed64 => "sfixed64" | .sint32 => "sint32" | .sint64 => "sint64"

/-- `protoreflect.Cardinality`, with Go's `Cardinality.String()` value. -/
inductive Card where
  | optional | required | repeated
deriving DecidableEq, Repr

/-- Go's `Cardinality.String()`. -/
def cardStr : Card → String
  | .optional => "optional"
  | .required => "required"
  | .repeated => "repeated"

/-- One field descriptor as the extractor reads it. -/
structure FieldD where
  goName : String
  number : Nat
  card : Card
  kind : Kind
  refFullName : String
deriving DecidableEq, Repr

/-- One message descriptor: Go name, full descriptor name, fields and nested
messages in declaration order. -/
inductive MessageD where
  | mk (goName fullName : String) (fields : List FieldD) (nested : List MessageD)

/-- The message's Go name. -/
def MessageD.goName : MessageD → String
  | .mk g _ _ _ => g

/-- The message's fully qualified descriptor name. -/
def MessageD.fullName : MessageD → String
  | .mk _ fn _ _ => fn

/-- The message's fields in declaration order. -/
def MessageD.fields : MessageD → List FieldD
  | .mk _ _ fl _ => fl

/-- The message's nested messages in declaration order. -/
def MessageD.nested : MessageD → List MessageD
  | .mk _ _ _ ns => ns

/-- One file descriptor as the extractor reads it. -/
structure FileD where
  pkg : String
  path : String
  messages : List MessageD

/-- One emitted line of the generated file: either plain text (one `g.P`
call of string arguments) or the constant line
`g.P(msgGoName, "_", fieldGoName, "=", number, "// ", card, " ", typeName)`,
carried with the exact argument pieces. -/
inductive Line where
  | text (s : String)
  | constDecl (msgGoName fieldGoName : String) (number : Nat)
      (card : String) (typeName : String)
deriving DecidableEq, Repr

/-- The string a `Line` prints as (protogen's `P` concatenates its arguments
without separators). -/
def lineStr : Line → String
  | .text s => s
  | .constDecl m f n c t => m ++ "_" ++ f ++ "=" ++ toString n ++ "// " ++ c ++ " " ++ t

/-- The `typeName` computation of `generateFieldNumbers`: start from
`fd.Kind().String()` and override it with the referenced type's full name for
enum, message and group kinds. -/
def typeNameOf (f : FieldD) : String :=
  match f.kind with
  | .enumKind => f.refFullName
  | .messageKind => f.refFullName
  | .groupKind => f.refFullName
  | k => kindStr k

/-- The `processMessages` recursion of `generateFieldNumbers`: for each
message, a header comment, `const (`, one constant line per field, `)`, then
the nested messages, then the remaining messages. -/
def emitMessages : List MessageD → List Line
  | [] => []
  | .mk goName fullName fields nested :: rest =>
    (Line.text ("// Field numbers for " ++ fullName ++ ".") ::
      Line.text "const (" ::
      fields.map (fun f =>
        Line.constDecl goName f.goName f.number (cardStr f.card) (typeNameOf f)) ++
      [Line.text ")"]) ++
    emitMessages nested ++ emitMessages rest

/-- `generateFieldNumbers`: a no-op (no generated file) unless the file's
declared package is `google.protobuf`; otherwise one generated file named
`<modulePath>/internal/fieldnum/<base>_gen.go` (where `base` is the proto
file name without its `.proto` suffix), holding the preamble, the package
clause, a blank line, and the `processMessages` output. -/
def generateFieldNumbers (modulePath : String) (file : FileD) :
    Option (String × List Line) :=
  if file.pkg ≠ "google.protobuf" then none
  else
    let importPath := modulePath ++ "/internal/fieldnum"
    let base := trimSuffix (baseOf file.path) ".proto"
    some (importPath ++ "/" ++ base ++ "_gen.go",
      generatedPreamble.map Line.text ++
      [Line.text ("package " ++ baseOf importPath), Line.text ""] ++
      emitMessages file.messages)

/-- One constant of the extractor's output, as the claim describes it: a
name, the field number, and the trailing comment's cardinality and type
name. -/
structure SpecConst where
  name : String
  number : Nat
  card : String
  typeName : String
deriving DecidableEq, Repr

/-- Stated from the claim's words: for each field of each message visited
depth-first in declaration order (including nested messages), exactly one
constant named `<MessageGoName>_<FieldGoName>` equal to the field's number,
with the field's cardinality and a type name that is the fully qualified
descriptor name for enum- or message-typed fields (a group field references
a message type) and the scalar kind name otherwise. -/
def specFieldConsts : List MessageD → List SpecConst
  | [] => []
  | .mk goName _ fields nested :: rest =>
    fields.map (fun f =>
      { name := goName ++ "_" ++ f.goName, number := f.number,
        card := cardStr f.card,
        typeName :=
          if f.kind = .enumKind ∨ f.kind = .messageKind ∨ f.kind = .groupKind
          then f.refFullName else kindStr f.kind }) ++
    specFieldConsts nested ++ specFieldConsts rest

/-- The constants among a list of emitted lines, in order. -/
def constLines : List Line → List SpecConst
  | [] => []
  | .text _ :: rest => constLines rest
  | .constDecl m f n c t :: rest =>
    { name := m ++ "_" ++ f, number := n, card := c, typeName := t } :: constLines rest

/-- `constLines` distributes over concatenation. -/
theorem constLines_append (a b : List Line) :
    constLines (a ++ b) = constLines a ++ constLines b := by
  induction a with
  | nil => rfl
  | cons l rest ih =>
    cases l <;> simp [constLines, ih]

/-- The per-field type names agree between the emitted lines and the
claim-side description. -/
theorem typeNameOf_eq_spec (f : FieldD) :
    typeNameOf f =
      (if f.kind = .enumKind ∨ f.kind = .messageKind ∨ f.kind = .groupKind
       then f.refFullName else kindStr f.kind) := by
  cases hk : f.kind <;> simp [typeNameOf, hk]

/-- The block of constant lines emitted for one message's fields carries
exactly the claim-side constants of those fields. -/
theorem constLines_map_consts (goName : String) (fields : List FieldD) :
    constLines (fields.map (fun f =>
        Line.constDecl goName f.goName f.number (cardStr f.card) (typeNameOf f))) =
      fields.map (fun f =>
        { name := goName ++ "_" ++ f.goName, number := f.number,
          card := cardStr f.card,
          typeName :=
            if f.kind = .enumKind ∨ f.kind = .messageKind ∨ f.kind = .groupKind
            then f.refFullName else kindStr f.kind : SpecConst }) := by
  induction fields with
  | nil => rfl
  | cons f fl ihf =>
    simp only [List.map_cons, constLines, ihf, List.cons.injEq, and_true]
    rw [typeNameOf_eq_spec f]

/-- The constants embedded in the `processMessages` output are exactly the
claim's depth-first field constants. -/
theorem constLines_emitMessages (ms : List MessageD) :
    constLines (emitMessages ms) = specFieldConsts ms := by
  induction ms using emitMessages.induct with
  | case1 => simp [emitMessages, specFieldConsts, constLines]
  | case2 goName fullName fields nested rest ihn ihr =>
    rw [emitMessages, specFieldConsts]
    simp only [List.append_eq, List.cons_append, List.append_assoc, constLines,
      constLines_append, constLines_map_consts, ihn, ihr, List.nil_append,
      List.append_nil]

/-- Claim C3: the Field-Number Extractor emits nothing for a file whose
declared package is not `google.protobuf`; for a file in that family it
emits one generated file whose constant lines are, in order, exactly one
constant per field of each message visited depth-first in declaration order
(nested messages included), named `<MessageGoName>_<FieldGoName>`, equal to
the field's number, with the field's cardinality and a type name that is the
fully qualified descriptor name for enum- and message-typed (including
group) fields and the scalar kind name otherwise. -/
theorem C3_theorem (modulePath : String) (file : FileD) :
    (file.pkg ≠ "google.protobuf" → generateFieldNumbers modulePath file = none) ∧
      (file.pkg = "google.protobuf" →
        ∃ fname lines, generateFieldNumbers modulePath file = some (fname, lines) ∧
          constLines lines = specFieldConsts file.messages) := by
  constructor
  · intro h
    unfold generateFieldNumbers
    rw [if_pos h]
  · intro h
    refine ⟨(modulePath ++ "/internal/fieldnum") ++ "/" ++
        trimSuffix (baseOf file.path) ".proto" ++ "_gen.go",
      generatedPreamble.map Line.text ++
        [Line.text ("package " ++ baseOf (modulePath ++ "/internal/fieldnum")),
         Line.text ""] ++
        emitMessages file.messages, ?_, ?_⟩
    · unfold generateFieldNumbers
      rw [if_neg (not_not_intro h)]
    · rw [constLines_append, constLines_append, constLines_emitMessages]
      have h1 : constLines (generatedPreamble.map Line.text) = [] := rfl
      have h2 : constLines
          [Line.text ("package " ++ baseOf (modulePath ++ "/internal/fieldnum")),
           Line.text ""] = [] := rfl
      rw [h1, h2]
      rfl

/-- Witness for C3: a non-well-known file produces nothing; a
`google.protobuf` file with the spec's example message (plus a nested
message with a message-typed field) produces exactly the expected constants
in depth-first order. -/
theorem C3_witness :
    generateFieldNumbers "mod" ⟨"foo.bar", "foo/bar.proto", []⟩ = none ∧
      (∃ fname lines,
        generateFieldNumbers "mod" ⟨"google.protobuf", "google/protobuf/field_mask.proto",
          [.mk "X" "google.protobuf.X"
            [⟨"Name", 1, .optional, .stringKind, ""⟩,
             ⟨"Tags", 2, .repeated, .stringKind, ""⟩]
            [.mk "X_Y" "google.protobuf.X.Y"
              [⟨"Ref", 3, .optional, .messageKind, "google.protobuf.X"⟩] []]]⟩ =
          some (fname, lines) ∧
        constLines lines = specFieldConsts
          [.mk "X" "google.protobuf.X"
            [⟨"Name", 1, .optional, .stringKind, ""⟩,
             ⟨"Tags", 2, .repeated, .stringKind, ""⟩]
            [.mk "X_Y" "google.protobuf.X.Y"
              [⟨"Ref", 3, .optional, .messageKind, "google.protobuf.X"⟩] []]]) ∧
      specFieldConsts
          [.mk "X" "google.protobuf.X"
            [⟨"Name", 1, .optional, .stringKind, ""⟩,
             ⟨"Tags", 2, .repeated, .stringKind, ""⟩]
            [.mk "X_Y" "google.protobuf.X.Y"
              [⟨"Ref", 3, .optional, .messageKind, "google.protobuf.X"⟩] []]] =
        [⟨"X_Name", 1, "optional", "string"⟩, ⟨"X_Tags", 2, "repeated", "string"⟩,
         ⟨"X_Y_Ref", 3, "optional", "google.protobuf.X"⟩] :=
  ⟨( C3_theorem "mod" ⟨"foo.bar", "foo/bar.proto", []⟩).1 (by decide),
   ( C3_theorem "mod" _).2 rfl,
   by simp [specFieldConsts, cardStr, kindStr]⟩

end GenProtos
